import Mathlib

/-!
Verification development for the quote-linking core of the
reddit-opportunity-engine repository (src/gumloop/add_links_fixed.py).

The Python code is shallowly embedded: Python strings become `List Char`,
Python dicts with optional keys become structures with `Option` fields,
`random.choice` becomes an explicit stream of draws, and floating-point
similarity scores become exact rationals.  Definitions follow the source
function by function; the few places where the deciding code is not
available in the repository (the stdlib `difflib.SequenceMatcher` and the
mojibake-destroyed smart-quote character class on line 108) are modelled
from the specification and say so in their doc comments.
-/

/-- Python strings are sequences of Unicode code points; we embed them as
lists of `Char`. -/
abbrev Str := List Char

/-- Python `\s` / `str.strip` whitespace, restricted to the ASCII range that
all inputs in this development use. -/
def isPySpace (c : Char) : Bool :=
  c = ' ' || c = '\t' || c = '\n' || c = '\x0d' || c = '\x0b' || c = '\x0c'

/-- Python regex `\w`: letters, digits and underscore (ASCII range). -/
def isWordChar (c : Char) : Bool :=
  ('a' ≤ c && c ≤ 'z') || ('A' ≤ c && c ≤ 'Z') || ('0' ≤ c && c ≤ '9') || c = '_'

/-- ASCII uppercase test, Python regex `[A-Z]`. -/
def isUpperAZ (c : Char) : Bool := 'A' ≤ c && c ≤ 'Z'

/-- Python `str.lower`, ASCII range (all texts handled here are ASCII apart from the
mojibake sequences, which have no case). -/
def pyLower (s : Str) : Str := s.map Char.toLower

/-- Python `str.strip()`: drop leading and trailing whitespace. -/
def pyStrip (s : Str) : Str :=
  ((s.dropWhile isPySpace).reverse.dropWhile isPySpace).reverse

/-- One scanning step of `str.replace`: `prevWs` records whether the
previous character was collapsed whitespace. -/
def collapseWsGo : Bool → Str → Str
  | _, [] => []
  | prevWs, c :: rest =>
    if isPySpace c then (if prevWs then [] else [' ']) ++ collapseWsGo true rest
    else c :: collapseWsGo false rest

/-- Python `re.sub(r'\s+', ' ', s)`: collapse every whitespace run to one space. -/
def collapseWs (s : Str) : Str := collapseWsGo false s

/-- Worker for `str.replace`, replacing non-overlapping occurrences of `old`
left to right; `fuel` bounds the scan (callers pass the string length). -/
def pyReplaceGo (old new : Str) : Nat → Str → Str
  | 0, s => s
  | Nat.succ fuel, s =>
    match s with
    | [] => []
    | c :: rest =>
      if old.isPrefixOf s then new ++ pyReplaceGo old new fuel (s.drop old.length)
      else c :: pyReplaceGo old new fuel rest

/-- Python `s.replace(old, new)` for non-empty `old` (every pattern in the
normalizer's table is non-empty). -/
def pyReplace (s old new : Str) : Str :=
  if old.isEmpty then s else pyReplaceGo old new s.length s

/-- The corrupted characters appearing in the normalizer's table, by code
point, exactly as in the source bytes of `fix_encoding_issues`. -/
def chA : Char := Char.ofNat 0xE2      -- 'a' with circumflex
def chEuro : Char := Char.ofNat 0x20AC -- euro sign
def chOe : Char := Char.ofNat 0x153    -- oe ligature
def chTm : Char := Char.ofNat 0x2122   -- trade mark sign
def chTilde : Char := Char.ofNat 0x2DC -- small tilde
def chCombTilde : Char := Char.ofNat 0x303 -- combining tilde
def chBrokenBar : Char := Char.ofNat 0xA6  -- broken bar
def chCent : Char := Char.ofNat 0xA2       -- cent sign
def chPerMille : Char := Char.ofNat 0x2030 -- per mille sign
def chCirc : Char := Char.ofNat 0x2C6      -- modifier circumflex
def chAtilde : Char := Char.ofNat 0xC3     -- 'A' with tilde
def chAcirc : Char := Char.ofNat 0xC2      -- 'A' with circumflex
def chEmDash : Char := Char.ofNat 0x2014   -- em dash
def chEllipsis : Char := Char.ofNat 0x2026 -- horizontal ellipsis
def chBullet : Char := Char.ofNat 0x2022   -- bullet
def chApprox : Char := Char.ofNat 0x2248   -- almost equal to
def chTimes : Char := Char.ofNat 0xD7      -- multiplication sign
def chRSQuote : Char := Char.ofNat 0x2019  -- right single quotation mark
def chLSQuote : Char := Char.ofNat 0x2018  -- left single quotation mark
def chLDQuote : Char := Char.ofNat 0x201C  -- left double quotation mark
def chRDQuote : Char := Char.ofNat 0x201D  -- right double quotation mark

/-- The ordered substitution table of `fix_encoding_issues` (lines 29-59), in
Python dict insertion order.  Keys are the exact corrupted code-point
sequences found in the source file. -/
def encodingReplacements : List (Str × Str) :=
  [ ([chA, chEuro, 'T', 'M', 't'], ['\'', 't']),
    ([chA, chEuro, 'T', 'M', 'm'], ['\'', 'm']),
    ([chA, chEuro, 'T', 'M', 's'], ['\'', 's']),
    ([chA, chEuro, 'T', 'M', 'v', 'e'], ['\'', 'v', 'e']),
    ([chA, chEuro, 'T', 'M', 'r', 'e'], ['\'', 'r', 'e']),
    ([chA, chEuro, 'T', 'M', 'l', 'l'], ['\'', 'l', 'l']),
    ([chA, chEuro, 'T', 'M', 'd'], ['\'', 'd']),
    ([chA, chEuro, 'T', 'M'], ['\'']),
    ([chA, chEuro, chOe], ['"']),
    ([chA, chEuro], ['"']),
    ([chA, chEuro, chTm], ['\'']),
    ([chA, chEuro, chTilde], ['\'']),
    ([chA, chEuro, ' ', chCombTilde], ['"']),
    ([chA, chEuro, '"'], [chEmDash]),
    ([chA, chEuro, chBrokenBar], [chEllipsis]),
    ([chA, chEuro, chCent], [chBullet]),
    ([chA, chPerMille, chCirc], [chApprox]),
    ([chAtilde, chEmDash], [chTimes]),
    ([chAcirc, ' '], [' ']),
    ([chAcirc], []) ]

/-- Embeds `fix_encoding_issues` (lines 23-65): early-return on empty text, then the
substitutions applied in table order. -/
def fix_encoding_issues (t : Str) : Str :=
  if t = [] then t
  else encodingReplacements.foldl (fun acc p => pyReplace acc p.1 p.2) t

/-- The character class of `re.sub(r'^["\'""]|["\'""]$', ...)` on line 97: in
the source bytes it contains only ASCII `"` (three times) and `'`. -/
def quoteMarkChars : List Char := ['"', '\'']

/-- The two anchored deletions of line 97: one leading and one trailing
quote-mark character (non-overlapping, as `re.sub` applies them). -/
def stripQuoteMarks (s : Str) : Str :=
  let s1 := match s with
    | [] => []
    | c :: rest => if c ∈ quoteMarkChars then rest else s
  match s1.getLast? with
  | some c => if c ∈ quoteMarkChars then s1.dropLast else s1
  | none => s1

/-- Embeds `clean_quote_for_matching` (lines 94-99): strip, delete one surrounding
quote mark on each side, collapse whitespace, strip again. -/
def clean_quote_for_matching (q : Str) : Str :=
  pyStrip (collapseWs (stripQuoteMarks (pyStrip q)))

/-- A raw regex match: start and end offsets into the scanned text, the whole
matched span (`group(0)`) and the first capture group. -/
structure RawMatch where
  startPos : Nat
  endPos : Nat
  group0 : Str
  inner : Str
deriving DecidableEq, Repr

/-- Length of the prefix of `s` containing no character of `cls`; `none` when
no character of `cls` occurs at all. -/
def distToChar (cls : List Char) : Str → Option Nat
  | [] => none
  | c :: rest => if c ∈ cls then some 0 else (distToChar cls rest).map (· + 1)

/-- Python `re.finditer` for a pattern of the shape `q([^q]{20,500})q` with `q` a
character class (patterns 1-3 of `extract_quotes_from_report`): leftmost
matching, greedy, non-overlapping.  At a class character, the inner group can
only run up to the next class character, at distance `d`; the attempt at this
position succeeds exactly when `20 ≤ d ≤ 500`, and scanning resumes after the
closing character. -/
def scanQuotePattern (cls : List Char) : Nat → Nat → Str → List RawMatch
  | 0, _, _ => []
  | _ + 1, _, [] => []
  | fuel + 1, pos, c :: rest =>
    if c ∈ cls then
      match distToChar cls rest with
      | some d =>
        if 20 ≤ d ∧ d ≤ 500 then
          ⟨pos, pos + d + 2, c :: rest.take (d + 1), rest.take d⟩ ::
            scanQuotePattern cls fuel (pos + d + 2) (rest.drop (d + 1))
        else scanQuotePattern cls fuel (pos + 1) rest
      | none => scanQuotePattern cls fuel (pos + 1) rest
    else scanQuotePattern cls fuel (pos + 1) rest

/-- The sentence terminators of the heuristic pattern `[A-Z][^.!?]{30,400}[.!?]`. -/
def sentenceEnders : List Char := ['.', '!', '?']

/-- Python `re.finditer(r'[A-Z][^.!?]{30,400}[.!?]', text)` (line 127): at an
uppercase letter, the middle group can only run up to the next terminator, at
distance `d`; the attempt succeeds exactly when `30 ≤ d ≤ 400`. -/
def scanSentencePattern : Nat → Nat → Str → List RawMatch
  | 0, _, _ => []
  | _ + 1, _, [] => []
  | fuel + 1, pos, c :: rest =>
    if isUpperAZ c then
      match distToChar sentenceEnders rest with
      | some d =>
        if 30 ≤ d ∧ d ≤ 400 then
          ⟨pos, pos + d + 2, c :: rest.take (d + 1), []⟩ ::
            scanSentencePattern fuel (pos + d + 2) (rest.drop (d + 1))
        else scanSentencePattern fuel (pos + 1) rest
      | none => scanSentencePattern fuel (pos + 1) rest
    else scanSentencePattern fuel (pos + 1) rest

/-- The fixed indicator set of line 135. -/
def indicatorWords : List Str :=
  ["i".data, "me".data, "my".data, "we".data, "our".data, "us".data,
   "frustrated".data, "love".data, "hate".data, "need".data, "want".data,
   "wish".data, "hope".data]

/-- Whether position `i` of `s` holds a `\w` character (out-of-range counts
as a non-word position, i.e. a boundary). -/
def charAtIsWord (s : Str) (i : Nat) : Bool :=
  match s.get? i with
  | some c => isWordChar c
  | none => false

/-- Python `re.search(r'\b(I|me|...)\b', s, re.IGNORECASE)` truthiness (line 135):
some indicator word occurs in `s` with a word boundary on each side,
case-insensitively. -/
def containsIndicatorWord (s : Str) : Bool :=
  let ls := pyLower s
  indicatorWords.any fun w =>
    (List.range (ls.length + 1)).any fun i =>
      w.isPrefixOf (ls.drop i) &&
      (decide (i = 0) || !charAtIsWord ls (i - 1)) &&
      !charAtIsWord ls (i + w.length)

/-- A Candidate Quote as built by `extract_quotes_from_report`: cleaned text,
exact raw span, and start/end offsets into the report. -/
structure RQuote where
  text : Str
  original_match : Str
  start_pos : Nat
  end_pos : Nat
deriving DecidableEq, Repr

/-- Modelled from the spec: the character class of the "smart quotes" pattern
on line 108 is unrecoverable from the repository copy (its characters were
themselves mojibake-destroyed, leaving an unterminated string literal); §4.2
of the specification names smart double quotes as its delimiters. -/
def smartQuoteChars : List Char := [chLDQuote, chRDQuote]

/-- Pattern phase of `extract_quotes_from_report` (lines 105-122): the three
quote patterns in order, each match cleaned and kept when the cleaned text
has at least 20 characters. -/
def quoteCandidates (t : Str) : List RQuote :=
  (scanQuotePattern ['"'] (t.length + 1) 0 t ++
   scanQuotePattern smartQuoteChars (t.length + 1) 0 t ++
   scanQuotePattern ['\''] (t.length + 1) 0 t).filterMap fun m =>
    if 20 ≤ (clean_quote_for_matching m.inner).length then
      some ⟨clean_quote_for_matching m.inner, m.group0, m.startPos, m.endPos⟩
    else none

/-- Heuristic phase of `extract_quotes_from_report` (lines 124-141): cleaned
complete sentences kept when they contain an indicator word. -/
def sentenceCandidates (t : Str) : List RQuote :=
  (scanSentencePattern (t.length + 1) 0 t).filterMap fun m =>
    if containsIndicatorWord (clean_quote_for_matching m.group0) then
      some ⟨clean_quote_for_matching m.group0, m.group0, m.startPos, m.endPos⟩
    else none

/-- Deduplication by cleaned text keeping the first occurrence (lines 143-149). -/
def dedupByText : List RQuote → List Str → List RQuote
  | [], _ => []
  | q :: rest, seen =>
    if q.text ∈ seen then dedupByText rest seen
    else q :: dedupByText rest (q.text :: seen)

/-- Embeds `extract_quotes_from_report` (lines 101-151): merge both strategies, sort
stably by start offset, deduplicate by cleaned text.  Python's `sorted` is
the stable sort by the key, which insertion sort implements. -/
def extract_quotes_from_report (t : Str) : List RQuote :=
  dedupByText
    (List.insertionSort (fun a b => a.start_pos ≤ b.start_pos)
      (quoteCandidates t ++ sentenceCandidates t)) []

/-- Length of the longest common prefix of two strings. -/
def cpl : Str → Str → Nat
  | [], _ => 0
  | _ :: _, [] => 0
  | a :: as_, b :: bs => if a = b then cpl as_ bs + 1 else 0

/-- Length of the common aligned substring of `a` and `b` starting at
positions `i` and `j`. -/
def blockLen (a b : Str) (i j : Nat) : Nat := cpl (a.drop i) (b.drop j)

/-- Maximum of a list of naturals (0 for the empty list). -/
def listMax (l : List Nat) : Nat := l.foldr max 0

/-- Maximum of `f i j` over all `i < n`, `j < m`, nested so that its
evaluation recurses to depth `n + m` rather than `n * m`. -/
def nestedMax (n m : Nat) (f : Nat → Nat → Nat) : Nat :=
  listMax ((List.range n).map fun i => listMax ((List.range m).map fun j => f i j))

/-- Length of the longest common aligned substring. -/
def maxBlockLen (a b : Str) : Nat :=
  nestedMax a.length b.length (blockLen a b)

/-- Modelled from the spec: total matched characters of the similarity
measure.  The deciding code, `difflib.SequenceMatcher`, is Python-stdlib code
that is not part of this repository; §4.4 of the specification defines
`matched_chars` as "the total length of the longest common aligned substrings
found by recursive decomposition" and accepts any algorithm with the same
monotonic semantics.  We take a longest common aligned substring, recurse on
the text on each side of it, and (making the measure orientation-free)
maximise over all positions of longest blocks; positions not holding a
longest block contribute 0 and never affect the maximum.  `fuel` bounds the
recursion depth; `matchedChars` supplies enough of it. -/
def matchedCharsF : Nat → Str → Str → Nat
  | 0, _, _ => 0
  | fuel + 1, a, b =>
    let k := maxBlockLen a b
    if k = 0 then 0
    else
      nestedMax a.length b.length fun i j =>
        if blockLen a b i j = k then
          k + matchedCharsF fuel (a.take i) (b.take j) +
            matchedCharsF fuel (a.drop (i + k)) (b.drop (j + k))
        else 0

/-- Total matched characters between two strings. -/
def matchedChars (a b : Str) : Nat := matchedCharsF (a.length + b.length) a b

/-- Modelled from the spec (§4.4): similarity of two strings,
`2 * matched_chars / (len(a) + len(b))`, as an exact rational (the Python
code computes it in floating point); 1 for two empty strings, as
`SequenceMatcher.ratio` returns. -/
def ratioQ (a b : Str) : ℚ :=
  if a.length + b.length = 0 then 1
  else 2 * (matchedChars a b : ℚ) / ((a.length : ℚ) + (b.length : ℚ))

/-- An exact nonnegative fraction, the computational carrier of similarity
scores (Mathlib's `ℚ` normalises through `Nat.gcd`, which the kernel cannot
evaluate; an un-normalised fraction with cross-multiplied comparisons
denotes the same rational). -/
structure Frac where
  num : Nat
  den : Nat
deriving DecidableEq, Repr

/-- The rational a fraction denotes. -/
def Frac.toQ (x : Frac) : ℚ := (x.num : ℚ) / (x.den : ℚ)

/-- Compares `x ≤ y` for fractions with positive denominators. -/
def Frac.le (x y : Frac) : Prop := x.num * y.den ≤ y.num * x.den

instance (x y : Frac) : Decidable (Frac.le x y) := Nat.decLe _ _

/-- The similarity score as a fraction: `2 * matched_chars` over the summed
lengths, computed on the lowercased, stripped copies of the arguments as
`similarity_ratio` (lines 90-92) does; `1/1` for two empty strings. -/
def simFrac (a b : Str) : Frac :=
  let a' := pyStrip (pyLower a)
  let b' := pyStrip (pyLower b)
  if a'.length + b'.length = 0 then ⟨1, 1⟩
  else ⟨2 * matchedChars a' b', a'.length + b'.length⟩

/-- Embeds `similarity_ratio` (lines 90-92) as a rational number. -/
def similarityScore (a b : Str) : ℚ := (simFrac a b).toQ

/-- A Source Quote record (a Python dict row from the upstream query); every
field is read with `.get` in the source, so each is optional here. -/
structure DQuote where
  quote_id : Option Str
  text : Option Str
  subreddit : Option Str
  url : Option Str
deriving DecidableEq, Repr

/-- A Match as recorded by `find_best_matches` (lines 189-193). -/
structure QMatch where
  report_quote : RQuote
  db_quote : DQuote
  similarity : Frac
deriving DecidableEq, Repr

/-- A scored candidate row of the matcher (lines 170-173). -/
structure Scored where
  db_quote : DQuote
  similarity : Frac
deriving DecidableEq, Repr

/-- Scoring loop of `find_best_matches` (lines 162-173): skip source quotes
whose id is already used, clean the source text, keep scores at or above the
threshold. -/
def scoreCandidates (rq : RQuote) (db_quotes : List DQuote) (used : List (Option Str))
    (T : Frac) : List Scored :=
  db_quotes.filterMap fun db =>
    if db.quote_id ∈ used then none
    else if Frac.le T (simFrac rq.text (clean_quote_for_matching (db.text.getD []))) then
      some ⟨db, simFrac rq.text (clean_quote_for_matching (db.text.getD []))⟩
    else none

/-- Condition `x['similarity'] >= top_similarity - 0.02` (line 181) in exact
arithmetic: `top - 1/50 ≤ x`, cross-multiplied over ℤ because the left side
may be negative. -/
def nearTie (top x : Frac) : Prop :=
  ((top.num : ℤ) * 50 - (top.den : ℤ)) * (x.den : ℤ) ≤ (x.num : ℤ) * 50 * (top.den : ℤ)

instance (top x : Frac) : Decidable (nearTie top x) := Int.decLe _ _

/-- Selection step of `find_best_matches` (lines 175-195): sort candidates
stably descending by similarity (Python's stable `sort`, realised by
insertion sort), collect near-ties within 0.02 of the top score, pick
uniformly among several near-ties (`random.choice`, embedded as the draw
`rands ctr` indexing into the near-tie list), otherwise take the sorted
head.  Returns the choice and the next position in the random stream. -/
def pickMatch (rands : Nat → Nat) (ctr : Nat) (rq : RQuote) (db_quotes : List DQuote)
    (used : List (Option Str)) (T : Frac) : Option (Scored × Nat) :=
  let sorted := List.insertionSort (fun x y => Frac.le y.similarity x.similarity)
    (scoreCandidates rq db_quotes used T)
  match sorted with
  | [] => none
  | c :: rest =>
    let tops := (c :: rest).filter fun x => decide (nearTie c.similarity x.similarity)
    if 1 < tops.length then some (tops.getD (rands ctr % tops.length) c, ctr + 1)
    else some (c, ctr)

/-- Main loop of `find_best_matches` (lines 158-195), carrying the recorded
matches, the used source-quote ids, and the random-stream position. -/
def find_best_matches_go (rands : Nat → Nat) (db_quotes : List DQuote) (T : Frac) :
    List RQuote → List QMatch × List (Option Str) × Nat →
      List QMatch × List (Option Str) × Nat
  | [], st => st
  | rq :: rest, (ms, used, ctr) =>
    match pickMatch rands ctr rq db_quotes used T with
    | none => find_best_matches_go rands db_quotes T rest (ms, used, ctr)
    | some (c, ctr') =>
      find_best_matches_go rands db_quotes T rest
        (ms ++ [⟨rq, c.db_quote, c.similarity⟩], used ++ [c.db_quote.quote_id], ctr')

/-- Embeds `find_best_matches` (lines 153-197). -/
def find_best_matches (rands : Nat → Nat) (ctr : Nat) (report_quotes : List RQuote)
    (db_quotes : List DQuote) (T : Frac) : List QMatch × Nat :=
  let st := find_best_matches_go rands db_quotes T report_quotes ([], [], ctr)
  (st.1, st.2.2)

/-- Reads `quote.get('subreddit', 'unknown')` (line 205). -/
def groupKey (q : DQuote) : Str := q.subreddit.getD ("unknown".data)

/-- Append `q` to the bucket of key `k`, creating the bucket at the end if
absent (Python dict insertion order). -/
def insertGrouped (gs : List (Str × List DQuote)) (k : Str) (q : DQuote) :
    List (Str × List DQuote) :=
  match gs with
  | [] => [(k, [q])]
  | (k', l) :: rest =>
    if k' = k then (k', l ++ [q]) :: rest else (k', l) :: insertGrouped rest k q

/-- Lines 203-209: partition the source quotes by subreddit. -/
def db_quotes_by_subreddit (quotes_list : List DQuote) : List (Str × List DQuote) :=
  quotes_list.foldl (fun gs q => insertGrouped gs (groupKey q) q) []

/-- Tier 1 (lines 214-217): run the matcher once per subreddit bucket with
the full candidate pool at threshold 0.98, threading the random stream. -/
def tier1Matches (rands : Nat → Nat) (report_quotes : List RQuote)
    (quotes_list : List DQuote) : List QMatch × Nat :=
  (db_quotes_by_subreddit quotes_list).foldl
    (fun acc g =>
      let r := find_best_matches rands acc.2 report_quotes g.2 ⟨98, 100⟩
      (acc.1 ++ r.1, r.2))
    ([], 0)

/-- Lines 212-225: Tier 1 per bucket, then Tier 2 at threshold 0.95 over the
full pool for candidates whose cleaned text was not matched in Tier 1. -/
def allMatches (rands : Nat → Nat) (report_quotes : List RQuote)
    (quotes_list : List DQuote) : List QMatch :=
  let t1 := tier1Matches rands report_quotes quotes_list
  let matchedTexts := t1.1.map fun m => m.report_quote.text
  let remaining := report_quotes.filter fun q => decide (q.text ∉ matchedTexts)
  if remaining.isEmpty then t1.1
  else t1.1 ++ (find_best_matches rands t1.2 remaining quotes_list ⟨95, 100⟩).1

/-- Python slice-splice `s[:start] + repl + s[stop:]` (line 248). -/
def splice (s : Str) (start stop : Nat) (repl : Str) : Str :=
  s.take start ++ repl ++ s.drop stop

/-- The markdown link of line 242: `[<raw span>](<url, default '#'>)`. -/
def linkedQuote (m : QMatch) : Str :=
  ['['] ++ m.report_quote.original_match ++ [']', '('] ++
    (m.db_quote.url.getD ['#']) ++ [')']

/-- Lines 227-249: sort all matches stably descending by start offset, splice
each replacement in, and count the replacements made. -/
def rewriteMatches (report : Str) (ms : List QMatch) : Str × Nat :=
  let sorted := List.insertionSort
    (fun x y => y.report_quote.start_pos ≤ x.report_quote.start_pos) ms
  sorted.foldl
    (fun st m =>
      (splice st.1 m.report_quote.start_pos m.report_quote.end_pos (linkedQuote m),
       st.2 + 1))
    (report, 0)

/-- ASCII digit for `n < 10`. -/
def digitChar (n : Nat) : Char := Char.ofNat (48 + n)

/-- Decimal rendering worker (`str` of a nonnegative int). -/
def natToStrGo : Nat → Nat → Str
  | 0, _ => []
  | fuel + 1, n =>
    if n < 10 then [digitChar n] else natToStrGo fuel (n / 10) ++ [digitChar (n % 10)]

/-- Python `str` of a natural number. -/
def natToStr (n : Nat) : Str := natToStrGo (n + 1) n

/-- Round `num / den` (with `den > 0`) to the nearest natural, ties to even,
as Python float formatting does on exactly representable values. -/
def roundHalfEvenNat (num den : Nat) : Nat :=
  let q := num / den
  let r := num % den
  if 2 * r < den then q else if den < 2 * r then q + 1
  else if q % 2 = 0 then q else q + 1

/-- Left-pad with zeros to `d` characters. -/
def padLeftZeros (s : Str) (d : Nat) : Str := List.replicate (d - s.length) '0' ++ s

/-- Python `"%.df"` formatting of a nonnegative fraction: `d` digits after
the point, ties to even. -/
def fmtFrac (d : Nat) (x : Frac) : Str :=
  let t := roundHalfEvenNat (10 ^ d * x.num) x.den
  natToStr (t / 10 ^ d) ++ ['.'] ++ padLeftZeros (natToStr (t % 10 ^ d)) d

/-- A row of `stats_dict['sample_matches']` (lines 407-415). -/
structure SampleMatch where
  report_text : Str
  db_text : Str
  similarity : Str
  subreddit : Str
deriving DecidableEq, Repr

/-- Embeds `stats_dict` (lines 395-415); `sample_matches` is the empty list when the
source adds no such key (it only does when there is at least one match). -/
structure StatsDict where
  total_quotes_in_report : Nat
  total_quotes_in_database : Nat
  successful_matches : Nat
  match_rate : Str
  subreddits_analyzed : List Str
  similarity_threshold_used : Str
  sample_matches : List SampleMatch
deriving DecidableEq, Repr

/-- Lines 395-415: the statistics record of one invocation. -/
def statsOf (report_quotes : List RQuote) (quotes_list : List DQuote)
    (linked_count : Nat) (all_matches : List QMatch) : StatsDict where
  total_quotes_in_report := report_quotes.length
  total_quotes_in_database := quotes_list.length
  successful_matches := linked_count
  match_rate :=
    if report_quotes.isEmpty then "0%".data
    else fmtFrac 1 ⟨linked_count * 100, report_quotes.length⟩ ++ ['%']
  subreddits_analyzed := (db_quotes_by_subreddit quotes_list).map Prod.fst
  similarity_threshold_used := "98% (subreddit-specific), 95% (cross-subreddit)".data
  sample_matches := (all_matches.take 3).map fun m =>
    { report_text := m.report_quote.text.take 100 ++ "...".data
      db_text := (m.db_quote.text.getD []).take 100 ++ "...".data
      similarity := fmtFrac 3 m.similarity
      subreddit := m.db_quote.subreddit.getD ("unknown".data) }

/-- One entry of the table of contents (lines 324-329). -/
structure TocEntry where
  level : Nat
  text : Str
  number : Str
  slug : Str
deriving DecidableEq, Repr

/-- The characters kept by `re.sub(r'[^\w\s-]', '', ...)` (line 313). -/
def slugKeepChar (c : Char) : Bool := isWordChar c || isPySpace c || c = '-'

/-- Python `re.sub(r'[-\s]+', '-', slug)` (line 314): collapse every run of hyphens
and whitespace to a single hyphen. -/
def collapseDashGo : Bool → Str → Str
  | _, [] => []
  | prev, c :: rest =>
    if isPySpace c || c = '-' then (if prev then [] else ['-']) ++ collapseDashGo true rest
    else c :: collapseDashGo false rest

/-- Python `.strip('-')`. -/
def stripDashes (s : Str) : Str :=
  ((s.dropWhile (· = '-')).reverse.dropWhile (· = '-')).reverse

/-- Lines 313-315: derive the base slug from a heading text. -/
def baseSlug (htext : Str) : Str :=
  (stripDashes (collapseDashGo false ((pyStrip (pyLower htext)).filter slugKeepChar))).take 50

/-- Lines 318-322: the collision loop, appending `-1`, `-2`, ... until the
slug is absent from the already-assigned ones.  The search is bounded by one
more candidate than there are existing slugs; the bound is never reached
(`uniquifySlug_not_mem` below), so the final fallback is dead code kept only
for totality. -/
def uniquifySlug (existing : List Str) (base : Str) : Str :=
  if base ∈ existing then
    match ((List.range (existing.length + 1)).map fun k =>
        base ++ ['-'] ++ natToStr (k + 1)).find? (fun s => decide (s ∉ existing)) with
    | some s => s
    | none => base ++ ['-'] ++ natToStr (existing.length + 2)
  else base

/-- Lines 313-322: base slug, `section-<index>` fallback for an empty slug,
then uniquification against the slugs assigned so far. -/
def mkSlug (entries : List TocEntry) (htext : Str) : Str :=
  let b0 := baseSlug htext
  let b := if b0 = [] then "section-".data ++ natToStr entries.length else b0
  uniquifySlug (entries.map TocEntry.slug) b

/-- One iteration of the TOC loop (lines 297-329) on a heading
`(hashes, text)`: stop at 20 entries, `##` advances the section counter and
resets the subsection one, `###` advances the subsection counter, anything
else is skipped. -/
def tocStep (st : List TocEntry × Nat × Nat) (h : Str × Str) :
    List TocEntry × Nat × Nat :=
  let entries := st.1
  let c1 := st.2.1
  let c2 := st.2.2
  if 20 ≤ entries.length then st
  else if h.1.length = 2 then
    let num := natToStr (c1 + 1) ++ ['.']
    (entries ++ [⟨0, pyStrip h.2, num, mkSlug entries h.2⟩], c1 + 1, 0)
  else if h.1.length = 3 then
    let num := natToStr c1 ++ ['.'] ++ natToStr (c2 + 1)
    (entries ++ [⟨1, pyStrip h.2, num, mkSlug entries h.2⟩], c1, c2 + 1)
  else st

/-- Lines 293-329: the TOC entries built from the list of headings that the
scan of line 290-291 produced (pairs of the `#{2,3}` run and the heading
text). -/
def tocEntriesOf (headings : List (Str × Str)) : List TocEntry :=
  (headings.foldl tocStep ([], 0, 0)).1

/-- The input shape of the quotes-data parameter at the parse stage (lines
76-87): `parsed l` is a successfully obtained list (a JSON string that
parsed, or a list passed directly); `unparseable msg` is a `json.loads`
failure with message `msg`. -/
inductive QuotesData where
  | parsed (l : List DQuote)
  | unparseable (msg : Str)
deriving DecidableEq, Repr

/-- The context-summary parameter: absent, a string, or a dict (lines 71-74). -/
inductive ContextData where
  | nullCtx
  | strCtx (s : Str)
  | dictCtx (l : List (Str × Str))
deriving DecidableEq, Repr

/-- Lines 71-74: normalize the context data. -/
def normalizeContext : ContextData → ContextData
  | .nullCtx => .nullCtx
  | .strCtx s => .strCtx (fix_encoding_issues s)
  | .dictCtx l => .dictCtx (l.map fun kv =>
      (kv.1, if kv.2 = [] then kv.2 else fix_encoding_issues kv.2))

/-- The stats output: a `{"error": ...}` payload (lines 84, 87) or the full
statistics record of line 417. -/
inductive StatsOut where
  | err (msg : Str)
  | ok (stats : StatsDict)
deriving DecidableEq, Repr

/-- Whether the stats payload carries an `error` key. -/
def StatsOut.hasError : StatsOut → Bool
  | .err _ => true
  | .ok _ => false

/-- The triple returned by `function`. -/
structure Outputs where
  processed_markdown : Str
  stats : StatsOut
  html_version : Str
deriving DecidableEq, Repr

/-- Builds `f"<html><body><pre>..."` of lines 84 and 87 around the report. -/
def htmlPreWrap (report : Str) : Str :=
  "<html><body><pre>".data ++ report ++ "</pre></body></html>".data

/-- Lines 67-87 of `function`: normalize the inputs, then parse the quotes
data; an unparseable or empty payload short-circuits with the normalized
report, an error stats payload and a `<pre>`-wrapped HTML document.
`normalRest` is the remainder of the pipeline (lines 89-419), reached only
with a non-empty parsed list; the theorems below about this stage hold for
every such remainder. -/
def functionParseStage (report_text user_question : Str)
    (context_summary : ContextData) (quotes_data : QuotesData)
    (normalRest : Str → Str → ContextData → List DQuote → Outputs) : Outputs :=
  let report := if report_text = [] then [] else fix_encoding_issues report_text
  let question := if user_question = [] then [] else fix_encoding_issues user_question
  let context := normalizeContext context_summary
  match quotes_data with
  | .unparseable msg =>
    ⟨report, .err ("Failed to parse quotes data: ".data ++ msg), htmlPreWrap report⟩
  | .parsed [] => ⟨report, .err "No quotes data provided".data, htmlPreWrap report⟩
  | .parsed (q :: qs) => normalRest report question context (q :: qs)

/-- Numeric value of an ASCII digit. -/
def digitVal (c : Char) : Nat := c.toNat - 48

/-- Value of a digit string. -/
def strVal (s : Str) : Nat := s.foldl (fun a c => a * 10 + digitVal c) 0

/-- Specification-side description of the link rewrite: with replacement
spans `(start, stop, repl)` listed in ascending order, the output text keeps
every character outside the spans in place (the untouched segment between
`pos` and the next span's start, then the replacement, and so on). -/
def rewriteFrame (s : Str) : Nat → List (Nat × Nat × Str) → Str
  | pos, [] => s.drop pos
  | pos, (st, en, r) :: rest =>
    (s.drop pos).take (st - pos) ++ r ++ rewriteFrame s en rest

instance : IsTotal QMatch
    (fun x y => y.report_quote.start_pos ≤ x.report_quote.start_pos) :=
  ⟨fun _ _ => Nat.le_total _ _⟩

instance : IsTrans QMatch
    (fun x y => y.report_quote.start_pos ≤ x.report_quote.start_pos) :=
  ⟨fun _ _ _ hab hbc => le_trans hbc hab⟩

theorem cpl_le_left : ∀ a b : Str, cpl a b ≤ a.length
  | [], _ => by simp [cpl]
  | _ :: _, [] => by simp [cpl]
  | a :: as_, b :: bs => by
    simp only [cpl, List.length_cons]
    split
    · exact Nat.succ_le_succ (cpl_le_left as_ bs)
    · exact Nat.zero_le _

theorem cpl_comm : ∀ a b : Str, cpl a b = cpl b a
  | [], [] => rfl
  | [], _ :: _ => rfl
  | _ :: _, [] => rfl
  | a :: as_, b :: bs => by
    simp only [cpl]
    rcases eq_or_ne a b with rfl | h
    · simp [cpl_comm as_ bs]
    · rw [if_neg h, if_neg (Ne.symm h)]

theorem cpl_le_right (a b : Str) : cpl a b ≤ b.length := cpl_comm a b ▸ cpl_le_left b a

theorem cpl_self : ∀ a : Str, cpl a a = a.length
  | [] => rfl
  | a :: as_ => by simp [cpl, cpl_self as_]

theorem le_listMax {l : List Nat} {x : Nat} (h : x ∈ l) : x ≤ listMax l := by
  induction l with
  | nil => cases h
  | cons y ys ih =>
    rcases List.mem_cons.mp h with rfl | h'
    · exact Nat.le_max_left _ _
    · exact le_trans (ih h') (Nat.le_max_right _ _)

theorem listMax_le {l : List Nat} {m : Nat} (h : ∀ x ∈ l, x ≤ m) : listMax l ≤ m := by
  induction l with
  | nil => exact Nat.zero_le _
  | cons y ys ih =>
    simp only [listMax, List.foldr_cons]
    exact Nat.max_le.mpr ⟨h y (List.mem_cons_self y ys),
      ih fun x hx => h x (List.mem_cons_of_mem _ hx)⟩

theorem le_nestedMax {n m : Nat} {f : Nat → Nat → Nat} {i j : Nat}
    (hi : i < n) (hj : j < m) : f i j ≤ nestedMax n m f :=
  le_trans (le_listMax (List.mem_map_of_mem _ (List.mem_range.mpr hj)))
    (le_listMax (List.mem_map_of_mem _ (List.mem_range.mpr hi)))

theorem nestedMax_le {n m : Nat} {f : Nat → Nat → Nat} {c : Nat}
    (h : ∀ i < n, ∀ j < m, f i j ≤ c) : nestedMax n m f ≤ c := by
  apply listMax_le
  intro x hx
  obtain ⟨i, hi, rfl⟩ := List.mem_map.mp hx
  apply listMax_le
  intro y hy
  obtain ⟨j, hj, rfl⟩ := List.mem_map.mp hy
  exact h i (List.mem_range.mp hi) j (List.mem_range.mp hj)

theorem blockLen_comm (a b : Str) (i j : Nat) : blockLen a b i j = blockLen b a j i := by
  simp [blockLen, cpl_comm]

theorem maxBlockLen_le_left (a b : Str) : maxBlockLen a b ≤ a.length := by
  apply nestedMax_le
  intro i _ j _
  exact le_trans (cpl_le_left _ _) (by simp)

theorem maxBlockLen_comm (a b : Str) : maxBlockLen a b = maxBlockLen b a := by
  apply le_antisymm <;>
  · apply nestedMax_le
    intro i hi j hj
    rw [blockLen_comm]
    exact le_nestedMax hj hi

theorem maxBlockLen_self (a : Str) (h : a ≠ []) : maxBlockLen a a = a.length := by
  refine le_antisymm (maxBlockLen_le_left a a) ?_
  have hpos : 0 < a.length := List.length_pos.mpr h
  have hle := le_nestedMax (f := blockLen a a) hpos hpos
  simpa [maxBlockLen, blockLen, cpl_self] using hle

theorem matchedCharsF_le_left : ∀ (fuel : Nat) (a b : Str),
    matchedCharsF fuel a b ≤ a.length := by
  intro fuel
  induction fuel with
  | zero => intro a b; simp [matchedCharsF]
  | succ fuel ih =>
    intro a b
    simp only [matchedCharsF]
    split
    · exact Nat.zero_le _
    · apply nestedMax_le
      intro i _ j _
      split
      · rename_i hk
        have hik : i + maxBlockLen a b ≤ a.length := by
          have := cpl_le_left (a.drop i) (b.drop j)
          rw [blockLen] at hk
          simp only [List.length_drop] at this
          omega
        have h1 := ih (a.take i) (b.take j)
        have h2 := ih (a.drop (i + maxBlockLen a b)) (b.drop (j + maxBlockLen a b))
        simp only [List.length_take, List.length_drop] at h1 h2
        omega
      · exact Nat.zero_le _

theorem matchedCharsF_le_right : ∀ (fuel : Nat) (a b : Str),
    matchedCharsF fuel a b ≤ b.length := by
  intro fuel
  induction fuel with
  | zero => intro a b; simp [matchedCharsF]
  | succ fuel ih =>
    intro a b
    simp only [matchedCharsF]
    split
    · exact Nat.zero_le _
    · apply nestedMax_le
      intro i _ j _
      split
      · rename_i hk
        have hjk : j + maxBlockLen a b ≤ b.length := by
          have := cpl_le_right (a.drop i) (b.drop j)
          rw [blockLen] at hk
          simp only [List.length_drop] at this
          omega
        have h1 := ih (a.take i) (b.take j)
        have h2 := ih (a.drop (i + maxBlockLen a b)) (b.drop (j + maxBlockLen a b))
        simp only [List.length_take, List.length_drop] at h1 h2
        omega
      · exact Nat.zero_le _

theorem matchedCharsF_nil_left (fuel : Nat) (b : Str) : matchedCharsF fuel [] b = 0 := by
  cases fuel with
  | zero => rfl
  | succ fuel => simp [matchedCharsF, maxBlockLen, nestedMax, listMax]

theorem matchedCharsF_succ_self (fuel : Nat) (a : Str) :
    matchedCharsF (fuel + 1) a a = a.length := by
  rcases eq_or_ne a [] with rfl | h
  · simp [matchedCharsF_nil_left]
  · refine le_antisymm (matchedCharsF_le_left _ _ _) ?_
    have hlen : a.length ≠ 0 := by simpa using h
    have hpos : 0 < a.length := Nat.pos_of_ne_zero hlen
    simp only [matchedCharsF, maxBlockLen_self a h, if_neg hlen]
    have hval : (if blockLen a a 0 0 = a.length then
        a.length + matchedCharsF fuel (a.take 0) (a.take 0) +
          matchedCharsF fuel (a.drop (0 + a.length)) (a.drop (0 + a.length))
      else 0) ≤ nestedMax a.length a.length fun i j =>
        if blockLen a a i j = a.length then
          a.length + matchedCharsF fuel (a.take i) (a.take j) +
            matchedCharsF fuel (a.drop (i + a.length)) (a.drop (j + a.length))
        else 0 :=
      le_nestedMax (f := fun i j => if blockLen a a i j = a.length then
        a.length + matchedCharsF fuel (a.take i) (a.take j) +
          matchedCharsF fuel (a.drop (i + a.length)) (a.drop (j + a.length))
        else 0) hpos hpos
    rw [if_pos (by simp [blockLen, cpl_self])] at hval
    simpa [matchedCharsF_nil_left, List.drop_length] using hval

theorem matchedCharsF_branch_le (fuel : Nat)
    (ih : ∀ x y, matchedCharsF fuel x y = matchedCharsF fuel y x)
    (a b : Str) (k : Nat) :
    (nestedMax a.length b.length fun i j =>
      if blockLen a b i j = k then
        k + matchedCharsF fuel (a.take i) (b.take j) +
          matchedCharsF fuel (a.drop (i + k)) (b.drop (j + k))
      else 0) ≤
    nestedMax b.length a.length fun i j =>
      if blockLen b a i j = k then
        k + matchedCharsF fuel (b.take i) (a.take j) +
          matchedCharsF fuel (b.drop (i + k)) (a.drop (j + k))
      else 0 := by
  apply nestedMax_le
  intro i hi j hj
  split
  · rename_i hk
    have hv : (if blockLen b a j i = k then
        k + matchedCharsF fuel (b.take j) (a.take i) +
          matchedCharsF fuel (b.drop (j + k)) (a.drop (i + k))
      else 0) ≤ nestedMax b.length a.length fun i j =>
        if blockLen b a i j = k then
          k + matchedCharsF fuel (b.take i) (a.take j) +
            matchedCharsF fuel (b.drop (i + k)) (a.drop (j + k))
        else 0 :=
      le_nestedMax (f := fun i j => if blockLen b a i j = k then
        k + matchedCharsF fuel (b.take i) (a.take j) +
          matchedCharsF fuel (b.drop (i + k)) (a.drop (j + k)) else 0) hj hi
    rw [if_pos ((blockLen_comm b a j i).trans hk)] at hv
    rw [ih (a.take i) (b.take j), ih (a.drop (i + k)) (b.drop (j + k))]
    exact hv
  · exact Nat.zero_le _

theorem matchedCharsF_comm : ∀ (fuel : Nat) (a b : Str),
    matchedCharsF fuel a b = matchedCharsF fuel b a := by
  intro fuel
  induction fuel with
  | zero => intro a b; rfl
  | succ fuel ih =>
    intro a b
    simp only [matchedCharsF, maxBlockLen_comm a b]
    by_cases hk : maxBlockLen b a = 0
    · simp [hk]
    · rw [if_neg hk, if_neg hk]
      exact le_antisymm (matchedCharsF_branch_le fuel ih a b _)
        (matchedCharsF_branch_le fuel ih b a _)

theorem matchedChars_self (a : Str) (h : a ≠ []) : matchedChars a a = a.length := by
  have hlen : a.length ≠ 0 := by simpa using h
  unfold matchedChars
  rcases Nat.exists_eq_succ_of_ne_zero (n := a.length + a.length) (by omega) with ⟨n, hn⟩
  rw [hn, matchedCharsF_succ_self]

theorem matchedChars_comm (a b : Str) : matchedChars a b = matchedChars b a := by
  unfold matchedChars
  rw [Nat.add_comm a.length b.length, matchedCharsF_comm]

theorem ratioQ_self (a : Str) : ratioQ a a = 1 := by
  rcases eq_or_ne a [] with rfl | h
  · simp [ratioQ]
  · have hlen : a.length ≠ 0 := by simpa using h
    have hpos : (0 : ℚ) < (a.length : ℚ) := by exact_mod_cast Nat.pos_of_ne_zero hlen
    rw [ratioQ, if_neg (by omega), matchedChars_self a h]
    field_simp
    ring

theorem ratioQ_comm (a b : Str) : ratioQ a b = ratioQ b a := by
  rw [ratioQ, ratioQ, Nat.add_comm a.length b.length, matchedChars_comm,
    add_comm ((a.length : ℚ)) ((b.length : ℚ))]

theorem ratioQ_nonneg (a b : Str) : 0 ≤ ratioQ a b := by
  rw [ratioQ]
  split
  · norm_num
  · apply div_nonneg
    · positivity
    · positivity

theorem ratioQ_le_one (a b : Str) : ratioQ a b ≤ 1 := by
  rw [ratioQ]
  split
  · norm_num
  · rename_i hne
    have hM1 : matchedChars a b ≤ a.length := matchedCharsF_le_left _ _ _
    have hM2 : matchedChars a b ≤ b.length := matchedCharsF_le_right _ _ _
    have hpos : (0 : ℚ) < (a.length : ℚ) + (b.length : ℚ) := by
      have : 0 < a.length + b.length := Nat.pos_of_ne_zero hne
      exact_mod_cast this
    rw [div_le_one hpos]
    have h1 : (matchedChars a b : ℚ) ≤ (a.length : ℚ) := by exact_mod_cast hM1
    have h2 : (matchedChars a b : ℚ) ≤ (b.length : ℚ) := by exact_mod_cast hM2
    linarith

theorem simFrac_toQ (a b : Str) :
    (simFrac a b).toQ = ratioQ (pyStrip (pyLower a)) (pyStrip (pyLower b)) := by
  rw [simFrac, ratioQ]
  split
  · simp [Frac.toQ]
  · simp only [Frac.toQ]
    push_cast
    ring

/-- C3: the similarity measure is 1 on identical inputs, symmetric, and lands
in [0, 1]; it is computed on the lowercased, whitespace-trimmed copies of its
arguments, exactly as `similarity_ratio` does. -/
theorem similarity_props (a b : Str) :
    similarityScore a a = 1 ∧ similarityScore a b = similarityScore b a ∧
      0 ≤ similarityScore a b ∧ similarityScore a b ≤ 1 := by
  unfold similarityScore
  rw [simFrac_toQ, simFrac_toQ, simFrac_toQ]
  exact ⟨ratioQ_self _, ratioQ_comm _ _, ratioQ_nonneg _ _, ratioQ_le_one _ _⟩

theorem strVal_append (s t : Str) :
    strVal (s ++ t) = t.foldl (fun a c => a * 10 + digitVal c) (strVal s) := by
  simp [strVal, List.foldl_append]

theorem digitVal_digitChar (n : Nat) (h : n < 10) : digitVal (digitChar n) = n := by
  interval_cases n <;> decide

theorem strVal_natToStrGo : ∀ (fuel n : Nat), n < fuel →
    strVal (natToStrGo fuel n) = n := by
  intro fuel
  induction fuel with
  | zero => omega
  | succ fuel ih =>
    intro n hn
    by_cases h10 : n < 10
    · simp [natToStrGo, h10, strVal, digitVal_digitChar n h10]
    · have hdiv : n / 10 < fuel := by omega
      simp only [natToStrGo, if_neg h10, strVal_append, List.foldl_cons, List.foldl_nil]
      rw [show strVal (natToStrGo fuel (n / 10)) = n / 10 from ih _ hdiv,
        digitVal_digitChar _ (Nat.mod_lt n (by omega))]
      omega

theorem natToStr_injective : Function.Injective natToStr := by
  intro m n h
  have hm := strVal_natToStrGo (m + 1) m (Nat.lt_succ_self m)
  have hn := strVal_natToStrGo (n + 1) n (Nat.lt_succ_self n)
  rw [natToStr, natToStr] at h
  rw [← hm, ← hn, h]

theorem uniquifySlug_not_mem (existing : List Str) (base : Str) :
    uniquifySlug existing base ∉ existing := by
  rw [uniquifySlug]
  split
  · rename_i hmem
    rcases hfind : ((List.range (existing.length + 1)).map fun k =>
        base ++ ['-'] ++ natToStr (k + 1)).find? (fun s => decide (s ∉ existing)) with _ | s
    · exfalso
      have hall := List.find?_eq_none.mp hfind
      have hsub : ((List.range (existing.length + 1)).map fun k =>
          base ++ ['-'] ++ natToStr (k + 1)) ⊆ existing := by
        intro x hx
        have := hall x hx
        simpa using this
      have hinj : Function.Injective (fun k => base ++ ['-'] ++ natToStr (k + 1)) := by
        intro k1 k2 hk
        simp only [List.append_assoc] at hk
        have h2 := List.append_cancel_left hk
        have h3 := List.append_cancel_left h2
        exact Nat.succ_injective (natToStr_injective h3)
      have hnd : ((List.range (existing.length + 1)).map fun k =>
          base ++ ['-'] ++ natToStr (k + 1)).Nodup :=
        (List.nodup_range _).map hinj
      have hlen := (hnd.subperm hsub).length_le
      simp at hlen
    · have := List.find?_some hfind
      simp only [hfind]
      simpa using this
  · rename_i hmem
    exact hmem

theorem snoc_slug_nodup (entries : List TocEntry) (e : TocEntry)
    (hnd : (entries.map TocEntry.slug).Nodup)
    (hnm : e.slug ∉ entries.map TocEntry.slug) :
    ((entries ++ [e]).map TocEntry.slug).Nodup := by
  simp only [List.map_append, List.map_cons, List.map_nil]
  rw [List.nodup_append]
  exact ⟨hnd, List.nodup_singleton _, fun a ha hb => by
    simp at hb; subst hb; exact hnm ha⟩

theorem tocStep_slug_nodup (st : List TocEntry × Nat × Nat) (h : Str × Str)
    (hnd : (st.1.map TocEntry.slug).Nodup) :
    (((tocStep st h).1).map TocEntry.slug).Nodup := by
  rw [tocStep]
  split
  · exact hnd
  · split
    · exact snoc_slug_nodup _ _ hnd (uniquifySlug_not_mem _ _)
    · split
      · exact snoc_slug_nodup _ _ hnd (uniquifySlug_not_mem _ _)
      · exact hnd

theorem toc_fold_slug_nodup : ∀ (hs : List (Str × Str)) (st : List TocEntry × Nat × Nat),
    (st.1.map TocEntry.slug).Nodup →
    (((hs.foldl tocStep st).1).map TocEntry.slug).Nodup := by
  intro hs
  induction hs with
  | nil => intro st h; exact h
  | cons h hs ih => intro st hst; exact ih _ (tocStep_slug_nodup st h hst)

theorem scoreCandidates_not_used {rq : RQuote} {db_quotes : List DQuote}
    {used : List (Option Str)} {T : Frac} {c : Scored}
    (h : c ∈ scoreCandidates rq db_quotes used T) : c.db_quote.quote_id ∉ used := by
  obtain ⟨db, _, hdb⟩ := List.mem_filterMap.mp h
  by_cases hu : db.quote_id ∈ used
  · simp [scoreCandidates, hu] at hdb
  · split at hdb
    · rename_i hused
      exact absurd hused hu
    · split at hdb
      · cases hdb
        exact hu
      · cases hdb

theorem getD_mem_or_default {l : List Scored} {n : Nat} {d : Scored} :
    l.getD n d ∈ l ∨ l.getD n d = d := by
  rw [List.getD]
  rcases he : l.get? n with _ | x
  · right; rfl
  · left
    simp only [Option.getD_some]
    exact List.get?_mem he

theorem pickMatch_mem {rands : Nat → Nat} {ctr : Nat} {rq : RQuote}
    {db_quotes : List DQuote} {used : List (Option Str)} {T : Frac}
    {c : Scored} {ctr' : Nat}
    (h : pickMatch rands ctr rq db_quotes used T = some (c, ctr')) :
    c ∈ scoreCandidates rq db_quotes used T := by
  rw [pickMatch] at h
  rcases hs : List.insertionSort (fun x y => Frac.le y.similarity x.similarity)
      (scoreCandidates rq db_quotes used T) with _ | ⟨c0, rest⟩
  · rw [hs] at h; cases h
  · rw [hs] at h
    have hmem : ∀ x, x ∈ c0 :: rest → x ∈ scoreCandidates rq db_quotes used T := by
      intro x hx
      have := (List.perm_insertionSort
        (fun x y => Frac.le y.similarity x.similarity)
        (scoreCandidates rq db_quotes used T)).mem_iff (a := x)
      rw [hs] at this
      exact this.mp hx
    simp only at h
    split at h
    · simp only [Option.some.injEq, Prod.mk.injEq] at h
      obtain ⟨hc, -⟩ := h
      rw [← hc]
      rcases getD_mem_or_default (l := (c0 :: rest).filter
          fun x => decide (nearTie c0.similarity x.similarity)) with hm | hm
      · exact hmem _ (List.mem_of_mem_filter hm)
      · rw [hm]
        exact hmem _ (List.mem_cons_self c0 rest)
    · simp only [Option.some.injEq, Prod.mk.injEq] at h
      obtain ⟨hc, -⟩ := h
      rw [← hc]
      exact hmem _ (List.mem_cons_self c0 rest)

theorem find_best_matches_go_spec (rands : Nat → Nat) (db_quotes : List DQuote) (T : Frac) :
    ∀ (rqs : List RQuote) (ms : List QMatch) (used : List (Option Str)) (ctr : Nat),
    ∃ suffix : List QMatch,
      (find_best_matches_go rands db_quotes T rqs (ms, used, ctr)).1 = ms ++ suffix ∧
      (find_best_matches_go rands db_quotes T rqs (ms, used, ctr)).2.1 =
        used ++ suffix.map (fun m => m.db_quote.quote_id) ∧
      (suffix.map fun m => m.report_quote).Sublist rqs ∧
      (suffix.map (fun m => m.db_quote.quote_id)).Nodup ∧
      ∀ m ∈ suffix, m.db_quote.quote_id ∉ used := by
  intro rqs
  induction rqs with
  | nil =>
    intro ms used ctr
    exact ⟨[], by simp [find_best_matches_go]⟩
  | cons rq rest ih =>
    intro ms used ctr
    rw [find_best_matches_go]
    rcases hp : pickMatch rands ctr rq db_quotes used T with _ | ⟨c, ctr'⟩
    · obtain ⟨suffix, h1, h2, h3, h4, h5⟩ := ih ms used ctr
      exact ⟨suffix, h1, h2, h3.cons rq, h4, h5⟩
    · obtain ⟨suffix, h1, h2, h3, h4, h5⟩ :=
        ih (ms ++ [⟨rq, c.db_quote, c.similarity⟩]) (used ++ [c.db_quote.quote_id]) ctr'
      have hcnotused : c.db_quote.quote_id ∉ used :=
        scoreCandidates_not_used (pickMatch_mem hp)
      refine ⟨⟨rq, c.db_quote, c.similarity⟩ :: suffix, ?_, ?_, ?_, ?_, ?_⟩
      · rw [h1]; simp
      · rw [h2]; simp
      · simpa using h3.cons₂ rq
      · simp only [List.map_cons, List.nodup_cons]
        refine ⟨fun hmem => ?_, h4⟩
        obtain ⟨m, hm, hid⟩ := List.mem_map.mp hmem
        exact (h5 m hm) (by rw [hid]; simp)
      · intro m hm
        rcases List.mem_cons.mp hm with rfl | hm'
        · exact hcnotused
        · intro hmu
          exact (h5 m hm') (by simp [hmu])

theorem find_best_matches_spec (rands : Nat → Nat) (ctr : Nat) (rqs : List RQuote)
    (db_quotes : List DQuote) (T : Frac) :
    ((find_best_matches rands ctr rqs db_quotes T).1.map fun m => m.report_quote).Sublist rqs ∧
    ((find_best_matches rands ctr rqs db_quotes T).1.map
      fun m => m.db_quote.quote_id).Nodup := by
  obtain ⟨suffix, h1, _, h3, h4, _⟩ :=
    find_best_matches_go_spec rands db_quotes T rqs [] [] ctr
  rw [find_best_matches]
  simp only
  rw [h1]
  simpa using ⟨h3, h4⟩

theorem find_best_matches_length_le (rands : Nat → Nat) (ctr : Nat) (rqs : List RQuote)
    (db_quotes : List DQuote) (T : Frac) :
    (find_best_matches rands ctr rqs db_quotes T).1.length ≤ rqs.length := by
  have h := (find_best_matches_spec rands ctr rqs db_quotes T).1.length_le
  simpa using h

theorem rewriteFrame_snoc (s : Str) (st en : Nat) (r : Str) :
    ∀ (asc : List (Nat × Nat × Str)) (pos : Nat),
    (∀ sp ∈ asc, sp.1 ≤ sp.2.1 ∧ sp.2.1 ≤ st) →
    rewriteFrame s pos (asc ++ [(st, en, r)]) =
      rewriteFrame (s.take st) pos asc ++ r ++ s.drop en := by
  intro asc
  induction asc with
  | nil =>
    intro pos _
    simp only [List.nil_append, rewriteFrame]
    rw [List.drop_take]
  | cons sp asc ih =>
    intro pos hsp
    obtain ⟨st1, en1, r1⟩ := sp
    have h1 := hsp (st1, en1, r1) (List.mem_cons_self _ _)
    simp only [List.cons_append, rewriteFrame, List.append_eq]
    rw [ih en1 (fun x hx => hsp x (List.mem_cons_of_mem _ hx))]
    have hseg : ((s.take st).drop pos).take (st1 - pos) = (s.drop pos).take (st1 - pos) := by
      rw [List.drop_take, List.take_take]
      congr 1
      omega
    rw [hseg]
    simp [List.append_assoc]

theorem foldl_splice_append (T : Str) :
    ∀ (spans : List (Nat × Nat × Str)) (A : Str),
    spans.Pairwise (fun x y => y.2.1 ≤ x.1) →
    (∀ sp ∈ spans, sp.1 ≤ sp.2.1 ∧ sp.2.1 ≤ A.length) →
    spans.foldl (fun t sp => splice t sp.1 sp.2.1 sp.2.2) (A ++ T) =
      spans.foldl (fun t sp => splice t sp.1 sp.2.1 sp.2.2) A ++ T := by
  intro spans
  induction spans with
  | nil => intro A _ _; rfl
  | cons sp rest ih =>
    intro A hpw hb
    obtain ⟨st1, en1, r1⟩ := sp
    obtain ⟨h1, h2⟩ := hb _ (List.mem_cons_self _ _)
    simp only [List.foldl_cons]
    have hsplice : splice (A ++ T) st1 en1 r1 = splice A st1 en1 r1 ++ T := by
      rw [splice, splice, List.take_append_of_le_length (le_trans h1 h2),
        List.drop_append_of_le_length h2]
      simp [List.append_assoc]
    rw [hsplice]
    apply ih
    · exact (List.pairwise_cons.mp hpw).2
    · intro x hx
      have hxle := (List.pairwise_cons.mp hpw).1 x hx
      have hxb := hb x (List.mem_cons_of_mem _ hx)
      refine ⟨hxb.1, ?_⟩
      have hlen : st1 ≤ (splice A st1 en1 r1).length := by
        simp only [splice, List.length_append, List.length_take, List.length_drop]
        omega
      omega

theorem foldl_splice_eq_rewriteFrame :
    ∀ (spans : List (Nat × Nat × Str)) (s : Str),
    spans.Pairwise (fun x y => y.2.1 ≤ x.1) →
    (∀ sp ∈ spans, sp.1 ≤ sp.2.1 ∧ sp.2.1 ≤ s.length) →
    spans.foldl (fun t sp => splice t sp.1 sp.2.1 sp.2.2) s =
      rewriteFrame s 0 spans.reverse := by
  intro spans
  induction spans with
  | nil => intro s _ _; simp [rewriteFrame]
  | cons sp rest ih =>
    intro s hpw hb
    obtain ⟨st, en, r⟩ := sp
    obtain ⟨hse, hel⟩ := hb _ (List.mem_cons_self _ _)
    have htail := (List.pairwise_cons.mp hpw).1
    have hbtail : ∀ x ∈ rest, x.1 ≤ x.2.1 ∧ x.2.1 ≤ (s.take st).length := by
      intro x hx
      refine ⟨(hb x (List.mem_cons_of_mem _ hx)).1, ?_⟩
      have := htail x hx
      simp only [List.length_take]
      omega
    simp only [List.foldl_cons, List.reverse_cons]
    rw [show splice s st en r = s.take st ++ (r ++ s.drop en) from by
      rw [splice]; simp [List.append_assoc]]
    rw [foldl_splice_append (r ++ s.drop en) rest (s.take st)
      (List.pairwise_cons.mp hpw).2 hbtail]
    rw [ih (s.take st) (List.pairwise_cons.mp hpw).2 hbtail]
    rw [rewriteFrame_snoc s st en r rest.reverse 0
      (fun x hx => ⟨(hb x (List.mem_cons_of_mem _ (List.mem_reverse.mp hx))).1,
        htail x (List.mem_reverse.mp hx)⟩)]
    simp [List.append_assoc]

theorem rewrite_fold_pair : ∀ (l : List QMatch) (s : Str) (n : Nat),
    l.foldl (fun st m =>
      (splice st.1 m.report_quote.start_pos m.report_quote.end_pos (linkedQuote m),
       st.2 + 1)) (s, n) =
    ((l.map fun m =>
        (m.report_quote.start_pos, m.report_quote.end_pos, linkedQuote m)).foldl
      (fun t sp => splice t sp.1 sp.2.1 sp.2.2) s, n + l.length) := by
  intro l
  induction l with
  | nil => intro s n; simp
  | cons m rest ih =>
    intro s n
    simp only [List.foldl_cons, List.map_cons, List.length_cons, ih]
    exact Prod.ext rfl (by omega)

/-- C4 (amended): whenever the Matches' spans are pairwise disjoint (and
non-empty and within bounds, as every span produced by the extractor is),
the link-rewriting pass equals the frame-preserving specification
`rewriteFrame`: text is replaced only inside each `[start_offset,
end_offset)` range, every character outside the spans is kept, and the
descending-offset processing order keeps all remaining offsets valid.  The
claim's unconditional no-overlap assertion is refuted separately: a
candidate matched in two community buckets yields two Matches with the same
span. -/
theorem rewrite_frame_property (report : Str) (ms : List QMatch)
    (hdisj : ms.Pairwise (fun x y =>
      x.report_quote.end_pos ≤ y.report_quote.start_pos ∨
      y.report_quote.end_pos ≤ x.report_quote.start_pos))
    (hb : ∀ m ∈ ms, m.report_quote.start_pos < m.report_quote.end_pos ∧
      m.report_quote.end_pos ≤ report.length) :
    (rewriteMatches report ms).1 =
      rewriteFrame report 0
        (((List.insertionSort
            (fun x y => y.report_quote.start_pos ≤ x.report_quote.start_pos) ms).map
          fun m => (m.report_quote.start_pos, m.report_quote.end_pos,
            linkedQuote m)).reverse) ∧
    (rewriteMatches report ms).2 = ms.length := by
  have hperm := List.perm_insertionSort
    (fun x y => y.report_quote.start_pos ≤ x.report_quote.start_pos) ms
  have hmem : ∀ x ∈ List.insertionSort
      (fun x y => y.report_quote.start_pos ≤ x.report_quote.start_pos) ms, x ∈ ms :=
    fun x hx => hperm.mem_iff.mp hx
  have hsortedPW := List.sorted_insertionSort
    (fun x y => y.report_quote.start_pos ≤ x.report_quote.start_pos) ms
  have hdisj' := (List.Perm.pairwise_iff
    (fun h => h.symm) hperm).mpr hdisj
  have hchain : (List.insertionSort
      (fun x y => y.report_quote.start_pos ≤ x.report_quote.start_pos) ms).Pairwise
      (fun x y => y.report_quote.end_pos ≤ x.report_quote.start_pos) := by
    refine (hsortedPW.and hdisj').imp_of_mem ?_
    intro a b ha hb' hr
    rcases hr.2 with hc | hc
    · have hae := (hb a (hmem a ha)).1
      have := hr.1
      omega
    · exact hc
  have hspan : ((List.insertionSort
      (fun x y => y.report_quote.start_pos ≤ x.report_quote.start_pos) ms).map
      fun m => (m.report_quote.start_pos, m.report_quote.end_pos,
        linkedQuote m)).Pairwise (fun x y => y.2.1 ≤ x.1) :=
    List.pairwise_map.mpr hchain
  have hbs : ∀ sp ∈ ((List.insertionSort
      (fun x y => y.report_quote.start_pos ≤ x.report_quote.start_pos) ms).map
      fun m => (m.report_quote.start_pos, m.report_quote.end_pos,
        linkedQuote m)), sp.1 ≤ sp.2.1 ∧ sp.2.1 ≤ report.length := by
    intro sp hsp
    obtain ⟨m, hm, rfl⟩ := List.mem_map.mp hsp
    obtain ⟨h1, h2⟩ := hb m (hmem m hm)
    exact ⟨le_of_lt h1, h2⟩
  constructor
  · simp only [rewriteMatches]
    rw [rewrite_fold_pair]
    exact foldl_splice_eq_rewriteFrame _ report hspan hbs
  · simp only [rewriteMatches]
    rw [rewrite_fold_pair]
    show 0 + _ = _
    rw [Nat.zero_add]
    exact hperm.length_eq

theorem distToChar_spec {cls : List Char} :
    ∀ {s : Str} {d : Nat}, distToChar cls s = some d →
      d < s.length ∧ ∃ c, s.get? d = some c ∧ c ∈ cls := by
  intro s
  induction s with
  | nil => intro d h; simp [distToChar] at h
  | cons c rest ih =>
    intro d h
    rw [distToChar] at h
    split at h
    · rename_i hc
      cases h
      exact ⟨by simp, c, rfl, hc⟩
    · rcases Option.map_eq_some'.mp h with ⟨d', hd', rfl⟩
      obtain ⟨hlt, cc, hcc, hmem⟩ := ih hd'
      exact ⟨by simpa using hlt, cc, by simpa using hcc, hmem⟩

theorem scanSentence_spec :
    ∀ (fuel pos : Nat) (s : Str), ∀ m ∈ scanSentencePattern fuel pos s,
      32 ≤ m.group0.length ∧ m.group0.length ≤ 402 ∧
      ∃ c, m.group0.get? (m.group0.length - 1) = some c ∧ c ∈ sentenceEnders := by
  intro fuel
  induction fuel with
  | zero => intro pos s m hm; simp [scanSentencePattern] at hm
  | succ fuel ih =>
    intro pos s m hm
    cases s with
    | nil => simp [scanSentencePattern] at hm
    | cons c rest =>
      rw [scanSentencePattern] at hm
      split at hm
      · rcases hd : distToChar sentenceEnders rest with _ | d
        · simp only [hd] at hm
          exact ih _ _ m hm
        · simp only [hd] at hm
          obtain ⟨hdl, ender, hget, hmemend⟩ := distToChar_spec hd
          by_cases hrange : 30 ≤ d ∧ d ≤ 400
          · rw [if_pos hrange] at hm
            rcases List.mem_cons.mp hm with rfl | hm'
            · have htake : (rest.take (d + 1)).length = d + 1 := by
                rw [List.length_take]
                omega
              have hlen : (c :: rest.take (d + 1)).length = d + 2 := by
                simp [htake]
              refine ⟨by rw [hlen]; omega, by rw [hlen]; omega, ender, ?_, hmemend⟩
              rw [hlen]
              show (c :: rest.take (d + 1)).get? (d + 1) = some ender
              rw [List.get?_cons_succ]
              rw [List.get?_eq_getElem?, List.getElem?_take_of_lt (by omega),
                ← List.get?_eq_getElem?]
              exact hget
            · exact ih _ _ m hm'
          · rw [if_neg hrange] at hm
            exact ih _ _ m hm
      · exact ih _ _ m hm

/-- C8 (amended): every Candidate Quote produced by the heuristic-sentence
strategy has a raw span of 32 to 402 characters (a capital, 30-400
non-terminator characters, a terminator) that ends at `.`, `!` or `?`, and
its cleaned text contains a whole-word indicator match; the claimed
[30, 400] bound holds for the raw inner span, not for the cleaned text,
which whitespace collapsing can make as short as 3 characters. -/
theorem heuristic_candidate_shape (t : Str) (q : RQuote)
    (hq : q ∈ sentenceCandidates t) :
    32 ≤ q.original_match.length ∧ q.original_match.length ≤ 402 ∧
    (∃ c, q.original_match.get? (q.original_match.length - 1) = some c ∧
      c ∈ sentenceEnders) ∧
    q.text = clean_quote_for_matching q.original_match ∧
    containsIndicatorWord q.text = true := by
  obtain ⟨m, hm, hmk⟩ := List.mem_filterMap.mp hq
  obtain ⟨h1, h2, h3⟩ := scanSentence_spec _ _ _ m hm
  split at hmk
  · rename_i hind
    cases hmk
    exact ⟨h1, h2, h3, rfl, hind⟩
  · exact absurd hmk (by simp)

/-- C1 (amended): within any single matching pool each Candidate Quote is
recorded in at most one Match (candidate cleaned texts stay pairwise
distinct among a pool's Matches), and a Tier-2 Match can only use a
candidate whose cleaned text no Tier-1 Match used; duplicates arise only
across different Tier-1 community buckets, which each run over the full
candidate pool. -/
theorem candidate_unique_per_pool :
    (∀ (rands : Nat → Nat) (ctr : Nat) (rqs : List RQuote) (dbq : List DQuote)
      (T : Frac), (rqs.map fun q => q.text).Nodup →
      (((find_best_matches rands ctr rqs dbq T).1.map
        fun m => m.report_quote.text)).Nodup) ∧
    (∀ (rands : Nat → Nat) (rqs : List RQuote) (dbs : List DQuote) (m : QMatch),
      m ∈ allMatches rands rqs dbs → m ∉ (tier1Matches rands rqs dbs).1 →
      m.report_quote.text ∉ (tier1Matches rands rqs dbs).1.map
        fun x => x.report_quote.text) := by
  constructor
  · intro rands ctr rqs dbq T hnd
    have hsub := (find_best_matches_spec rands ctr rqs dbq T).1
    have : ((find_best_matches rands ctr rqs dbq T).1.map
        fun m => m.report_quote.text) =
        (((find_best_matches rands ctr rqs dbq T).1.map
          fun m => m.report_quote).map fun q => q.text) := by
      simp [List.map_map]
    rw [this]
    exact hnd.sublist (hsub.map _)
  · intro rands rqs dbs m hmem hnot1
    simp only [allMatches] at hmem
    split at hmem
    · exact absurd hmem hnot1
    · rcases List.mem_append.mp hmem with h1 | h2
      · exact absurd h1 hnot1
      · have hsub := (find_best_matches_spec rands (tier1Matches rands rqs dbs).2
          (rqs.filter fun q => decide (q.text ∉ (tier1Matches rands rqs dbs).1.map
            fun m => m.report_quote.text)) dbs ⟨95, 100⟩).1
        have hrq : m.report_quote ∈ rqs.filter fun q =>
            decide (q.text ∉ (tier1Matches rands rqs dbs).1.map
              fun m => m.report_quote.text) := by
          refine hsub.subset ?_
          exact List.mem_map_of_mem _ h2
        have := List.of_mem_filter hrq
        simpa using this

/-- C2 (amended): within one matching pool (one `find_best_matches` call) no
source-quote id is consumed by two Matches; across Tier 1 and Tier 2 the
used-id set is rebuilt, so a Source Quote matched in Tier 1 can be matched
again in Tier 2 by a different candidate. -/
theorem source_id_unique_per_pool (rands : Nat → Nat) (ctr : Nat)
    (rqs : List RQuote) (dbq : List DQuote) (T : Frac) :
    (((find_best_matches rands ctr rqs dbq T).1.map
      fun m => m.db_quote.quote_id)).Nodup :=
  (find_best_matches_spec rands ctr rqs dbq T).2

theorem nodup_filter_none_length (l : List QMatch)
    (h : (l.map fun m => m.db_quote.quote_id).Nodup) :
    (l.filter fun m => decide (m.db_quote.quote_id = none)).length ≤ 1 := by
  have hnd2 : ((l.filter fun m => decide (m.db_quote.quote_id = none)).map
      fun m => m.db_quote.quote_id).Nodup :=
    h.sublist ((List.filter_sublist l).map _)
  rcases hf : l.filter fun m => decide (m.db_quote.quote_id = none) with _ | ⟨x, t⟩
  · rw [hf]; simp
  · rcases t with _ | ⟨y, t2⟩
    · rw [hf]; simp
    · exfalso
      have hx : x ∈ l.filter fun m => decide (m.db_quote.quote_id = none) := by
        rw [hf]; exact List.mem_cons_self _ _
      have hy : y ∈ l.filter fun m => decide (m.db_quote.quote_id = none) := by
        rw [hf]; exact List.mem_cons_of_mem _ (List.mem_cons_self _ _)
      have hxn : x.db_quote.quote_id = none := by
        simpa using List.of_mem_filter hx
      have hyn : y.db_quote.quote_id = none := by
        simpa using List.of_mem_filter hy
      rw [hf] at hnd2
      simp only [List.map_cons, List.nodup_cons, List.mem_cons, List.mem_map] at hnd2
      exact hnd2.1 (Or.inl (hxn.trans hyn.symm))

/-- C10: within a single matching pool, once a Source Quote lacking the
`quote_id` field is chosen, the shared missing id (`None`) is marked used
and every other id-less Source Quote is skipped for the remaining
candidates, so at most one id-less Source Quote is ever matched per pool. -/
theorem idless_source_matched_at_most_once (rands : Nat → Nat) (ctr : Nat)
    (rqs : List RQuote) (dbq : List DQuote) (T : Frac) :
    ((find_best_matches rands ctr rqs dbq T).1.filter
      fun m => decide (m.db_quote.quote_id = none)).length ≤ 1 :=
  nodup_filter_none_length _ (find_best_matches_spec rands ctr rqs dbq T).2

theorem tier1_fold_length_le (rands : Nat → Nat) (rqs : List RQuote) :
    ∀ (gs : List (Str × List DQuote)) (acc : List QMatch × Nat),
    ((gs.foldl (fun acc g =>
      (acc.1 ++ (find_best_matches rands acc.2 rqs g.2 ⟨98, 100⟩).1,
       (find_best_matches rands acc.2 rqs g.2 ⟨98, 100⟩).2)) acc).1).length ≤
      acc.1.length + gs.length * rqs.length := by
  intro gs
  induction gs with
  | nil => intro acc; simp
  | cons g rest ih =>
    intro acc
    simp only [List.foldl_cons, List.length_cons]
    have h := ih (acc.1 ++ (find_best_matches rands acc.2 rqs g.2 ⟨98, 100⟩).1,
      (find_best_matches rands acc.2 rqs g.2 ⟨98, 100⟩).2)
    have hfb := find_best_matches_length_le rands acc.2 rqs g.2 ⟨98, 100⟩
    simp only [List.length_append] at h
    have hmul : (rest.length + 1) * rqs.length =
        rest.length * rqs.length + rqs.length := by ring
    rw [hmul]
    linarith

theorem tier1Matches_length_le (rands : Nat → Nat) (rqs : List RQuote)
    (dbs : List DQuote) :
    (tier1Matches rands rqs dbs).1.length ≤
      (db_quotes_by_subreddit dbs).length * rqs.length := by
  simp only [tier1Matches]
  have := tier1_fold_length_le rands rqs (db_quotes_by_subreddit dbs) ([], 0)
  simpa using this

theorem allMatches_length_le (rands : Nat → Nat) (rqs : List RQuote)
    (dbs : List DQuote) :
    (allMatches rands rqs dbs).length ≤
      ((db_quotes_by_subreddit dbs).length + 1) * rqs.length := by
  simp only [allMatches]
  have h1 := tier1Matches_length_le rands rqs dbs
  have hmul : ((db_quotes_by_subreddit dbs).length + 1) * rqs.length =
      (db_quotes_by_subreddit dbs).length * rqs.length + rqs.length := by ring
  split
  · linarith
  · rw [List.length_append]
    have h2 := find_best_matches_length_le rands (tier1Matches rands rqs dbs).2
      (rqs.filter fun q => decide (q.text ∉ (tier1Matches rands rqs dbs).1.map
        fun m => m.report_quote.text)) dbs ⟨95, 100⟩
    have h3 := List.length_filter_le (fun q => decide
      (q.text ∉ (tier1Matches rands rqs dbs).1.map fun m => m.report_quote.text)) rqs
    linarith

/-- C7 (amended): the reported match rate is `"0%"` when there are no
Candidate Quotes and otherwise renders `linked_count / candidate_count * 100`
with one decimal place; but `linked_count` is only bounded by one Match per
candidate per Tier-1 bucket plus Tier 2, not by the candidate count, so the
rate can exceed 100% when a candidate matches in several community
buckets. -/
theorem match_rate_spec :
    (∀ (rqs : List RQuote) (dbs : List DQuote) (lc : Nat) (ms : List QMatch),
      rqs = [] → (statsOf rqs dbs lc ms).match_rate = "0%".data) ∧
    (∀ (rqs : List RQuote) (dbs : List DQuote) (lc : Nat) (ms : List QMatch),
      rqs ≠ [] → (statsOf rqs dbs lc ms).match_rate =
        fmtFrac 1 ⟨lc * 100, rqs.length⟩ ++ ['%']) ∧
    (∀ (rands : Nat → Nat) (ctr : Nat) (rqs : List RQuote) (dbq : List DQuote)
      (T : Frac), (find_best_matches rands ctr rqs dbq T).1.length ≤ rqs.length) ∧
    (∀ (rands : Nat → Nat) (rqs : List RQuote) (dbs : List DQuote),
      (allMatches rands rqs dbs).length ≤
        ((db_quotes_by_subreddit dbs).length + 1) * rqs.length) := by
  refine ⟨?_, ?_, find_best_matches_length_le, allMatches_length_le⟩
  · intro rqs dbs lc ms h
    subst h
    rfl
  · intro rqs dbs lc ms h
    simp [statsOf, List.isEmpty_iff, h]

/-- C5 (code bug): the substitution table replaces the two-character
sequence `â€` before the longer patterns that contain it as a prefix, so the
corrupted right-single-quote sequence `â€™` is mangled into `"™` instead of
becoming an apostrophe: `donâ€™t` normalizes to `don"™t`, not `don't`. -/
theorem encoding_fix_mangles_right_quote :
    fix_encoding_issues ("don".data ++ [chA, chEuro, chTm] ++ "t".data) =
      "don\"".data ++ [chTm] ++ "t".data ∧
    "don\"".data ++ [chTm] ++ "t".data ≠ "don't".data := by
  exact ⟨by decide, by decide⟩

/-- C6 (amended): an unparseable or empty source-quote input short-circuits
the pipeline: the returned markdown is the encoding-normalized input report
(equal to the input whenever it contains no corrupted sequences), the stats
payload carries an `error` key, and the HTML wraps that report in a
`<pre>` block — independently of the rest of the pipeline. -/
theorem short_circuit_outputs :
    ∀ (report question : Str) (ctx : ContextData)
      (rest : Str → Str → ContextData → List DQuote → Outputs),
    (∀ msg, functionParseStage report question ctx (.unparseable msg) rest =
      ⟨if report = [] then [] else fix_encoding_issues report,
       .err ("Failed to parse quotes data: ".data ++ msg),
       htmlPreWrap (if report = [] then [] else fix_encoding_issues report)⟩) ∧
    (functionParseStage report question ctx (.parsed []) rest =
      ⟨if report = [] then [] else fix_encoding_issues report,
       .err "No quotes data provided".data,
       htmlPreWrap (if report = [] then [] else fix_encoding_issues report)⟩) ∧
    (∀ msg, (functionParseStage report question ctx
      (.unparseable msg) rest).stats.hasError = true) ∧
    (functionParseStage report question ctx
      (.parsed []) rest).stats.hasError = true := by
  intro report question ctx rest
  exact ⟨fun _ => rfl, rfl, fun _ => rfl, rfl⟩

/-- C6 counterexample: with a report consisting of the corrupted character
`Â` and an unparseable quotes input, the returned markdown is the normalized
(empty) text, not the input report. -/
theorem short_circuit_normalizes_report_cex :
    (functionParseStage [chAcirc] [] .nullCtx (.unparseable [])
      (fun _ _ _ _ => ⟨[], .err [], []⟩)).processed_markdown ≠ [chAcirc] := by
  decide

set_option maxRecDepth 40000 in
/-- C1 counterexample: one Candidate Quote whose text equals a Source Quote
stored in two different community buckets is matched once per bucket, so its
cleaned text appears in two Matches of the final output. -/
theorem candidate_matched_twice_cex :
    ¬ (((allMatches (fun _ => 0)
      (extract_quotes_from_report ("\"abcdefghijklmnopqrst\"".data))
      [⟨some "q1".data, some "abcdefghijklmnopqrst".data, some "s1".data, some "u1".data⟩,
       ⟨some "q2".data, some "abcdefghijklmnopqrst".data, some "s2".data, some "u2".data⟩]).map
      fun m => m.report_quote.text).Nodup) := by
  decide

set_option maxRecDepth 40000 in
/-- C2 counterexample: a Source Quote consumed in Tier 1 is consumed again
in Tier 2 by a different candidate (similarity 40/41 ≥ 0.95), because the
used-id set is rebuilt between tiers; its id `q1` appears in two Matches of
one invocation. -/
theorem source_reused_across_tiers_cex :
    ¬ (((allMatches (fun _ => 0)
      (extract_quotes_from_report
        ("\"abcdefghijklmnopqrst\" and \"abcdefghijklmnopqrstu\"".data))
      [⟨some "q1".data, some "abcdefghijklmnopqrst".data, some "s1".data,
        some "u1".data⟩]).map
      fun m => m.db_quote.quote_id).Nodup) := by
  decide

set_option maxRecDepth 40000 in
/-- C4 counterexample: the duplicate Matches produced by cross-bucket
Tier-1 matching carry the same `[0, 22)` span, so the replacement spans of
one invocation are not pairwise non-overlapping. -/
theorem overlapping_spans_cex :
    ¬ ((allMatches (fun _ => 0)
      (extract_quotes_from_report ("\"bcdefghijklmnopqrstu\"".data))
      [⟨some "q1".data, some "bcdefghijklmnopqrstu".data, some "s1".data, some "u1".data⟩,
       ⟨some "q2".data, some "bcdefghijklmnopqrstu".data, some "s2".data, some "u2".data⟩]).Pairwise
      fun x y => x.report_quote.end_pos ≤ y.report_quote.start_pos ∨
        y.report_quote.end_pos ≤ x.report_quote.start_pos) := by
  decide

set_option maxRecDepth 40000 in
/-- C7 counterexample: with one Candidate Quote matched in two community
buckets, `linked_count` is 2 against 1 candidate and the reported rate is
`200.0%`, outside [0, 100]. -/
theorem match_rate_exceeds_100_cex :
    ¬ ((statsOf (extract_quotes_from_report ("\"cdefghijklmnopqrstuv\"".data))
        [⟨some "q1".data, some "cdefghijklmnopqrstuv".data, some "s1".data, some "u1".data⟩,
         ⟨some "q2".data, some "cdefghijklmnopqrstuv".data, some "s2".data, some "u2".data⟩]
        (rewriteMatches ("\"cdefghijklmnopqrstuv\"".data)
          (allMatches (fun _ => 0)
            (extract_quotes_from_report ("\"cdefghijklmnopqrstuv\"".data))
            [⟨some "q1".data, some "cdefghijklmnopqrstuv".data, some "s1".data, some "u1".data⟩,
             ⟨some "q2".data, some "cdefghijklmnopqrstuv".data, some "s2".data, some "u2".data⟩])).2
        (allMatches (fun _ => 0)
          (extract_quotes_from_report ("\"cdefghijklmnopqrstuv\"".data))
          [⟨some "q1".data, some "cdefghijklmnopqrstuv".data, some "s1".data, some "u1".data⟩,
           ⟨some "q2".data, some "cdefghijklmnopqrstuv".data, some "s2".data, some "u2".data⟩])).successful_matches ≤
      (statsOf (extract_quotes_from_report ("\"cdefghijklmnopqrstuv\"".data))
        [⟨some "q1".data, some "cdefghijklmnopqrstuv".data, some "s1".data, some "u1".data⟩,
         ⟨some "q2".data, some "cdefghijklmnopqrstuv".data, some "s2".data, some "u2".data⟩]
        (rewriteMatches ("\"cdefghijklmnopqrstuv\"".data)
          (allMatches (fun _ => 0)
            (extract_quotes_from_report ("\"cdefghijklmnopqrstuv\"".data))
            [⟨some "q1".data, some "cdefghijklmnopqrstuv".data, some "s1".data, some "u1".data⟩,
             ⟨some "q2".data, some "cdefghijklmnopqrstuv".data, some "s2".data, some "u2".data⟩])).2
        (allMatches (fun _ => 0)
          (extract_quotes_from_report ("\"cdefghijklmnopqrstuv\"".data))
          [⟨some "q1".data, some "cdefghijklmnopqrstuv".data, some "s1".data, some "u1".data⟩,
           ⟨some "q2".data, some "cdefghijklmnopqrstuv".data, some "s2".data, some "u2".data⟩])).total_quotes_in_report) ∧
    (statsOf (extract_quotes_from_report ("\"cdefghijklmnopqrstuv\"".data))
        [⟨some "q1".data, some "cdefghijklmnopqrstuv".data, some "s1".data, some "u1".data⟩,
         ⟨some "q2".data, some "cdefghijklmnopqrstuv".data, some "s2".data, some "u2".data⟩]
        (rewriteMatches ("\"cdefghijklmnopqrstuv\"".data)
          (allMatches (fun _ => 0)
            (extract_quotes_from_report ("\"cdefghijklmnopqrstuv\"".data))
            [⟨some "q1".data, some "cdefghijklmnopqrstuv".data, some "s1".data, some "u1".data⟩,
             ⟨some "q2".data, some "cdefghijklmnopqrstuv".data, some "s2".data, some "u2".data⟩])).2
        (allMatches (fun _ => 0)
          (extract_quotes_from_report ("\"cdefghijklmnopqrstuv\"".data))
          [⟨some "q1".data, some "cdefghijklmnopqrstuv".data, some "s1".data, some "u1".data⟩,
           ⟨some "q2".data, some "cdefghijklmnopqrstuv".data, some "s2".data, some "u2".data⟩])).match_rate =
      "200.0%".data := by
  exact ⟨by decide, by decide⟩

set_option maxRecDepth 40000 in
/-- C8 counterexample: the heuristic sentence `I` + 30 spaces + `!` is
extracted, and whitespace collapsing leaves a cleaned text of 3 characters,
far below the claimed lower bound of 30. -/
theorem heuristic_cleaned_length_cex :
    (sentenceCandidates ("I".data ++ List.replicate 30 ' ' ++ "!".data)).map
      (fun q => q.text.length) = [3] ∧ ¬ (30 ≤ 3) := by
  exact ⟨by decide, by decide⟩

set_option maxRecDepth 40000 in
theorem candidate_unique_per_pool_witness :
    ((find_best_matches (fun _ => 0) 0
      (extract_quotes_from_report ("\"defghijklmnopqrstuvw\"".data))
      [⟨some "q1".data, some "defghijklmnopqrstuvw".data, some "s1".data, some "u1".data⟩]
      ⟨98, 100⟩).1.map fun m => m.report_quote.text).Nodup :=
  candidate_unique_per_pool.1 (fun _ => 0) 0
    (extract_quotes_from_report ("\"defghijklmnopqrstuvw\"".data))
    [⟨some "q1".data, some "defghijklmnopqrstuvw".data, some "s1".data, some "u1".data⟩]
    ⟨98, 100⟩ (by decide)

theorem rewrite_frame_property_witness :
    (rewriteMatches "ab".data
      [⟨⟨"x".data, "a".data, 0, 1⟩, ⟨none, none, none, none⟩, ⟨1, 1⟩⟩,
       ⟨⟨"y".data, "b".data, 1, 2⟩, ⟨none, none, none, none⟩, ⟨1, 1⟩⟩]).1 =
      rewriteFrame "ab".data 0
        (((List.insertionSort
            (fun x y => y.report_quote.start_pos ≤ x.report_quote.start_pos)
            [⟨⟨"x".data, "a".data, 0, 1⟩, ⟨none, none, none, none⟩, ⟨1, 1⟩⟩,
             ⟨⟨"y".data, "b".data, 1, 2⟩, ⟨none, none, none, none⟩, ⟨1, 1⟩⟩]).map
          fun m => (m.report_quote.start_pos, m.report_quote.end_pos,
            linkedQuote m)).reverse) ∧
    (rewriteMatches "ab".data
      [⟨⟨"x".data, "a".data, 0, 1⟩, ⟨none, none, none, none⟩, ⟨1, 1⟩⟩,
       ⟨⟨"y".data, "b".data, 1, 2⟩, ⟨none, none, none, none⟩, ⟨1, 1⟩⟩]).2 =
    ([⟨⟨"x".data, "a".data, 0, 1⟩, ⟨none, none, none, none⟩, ⟨1, 1⟩⟩,
      ⟨⟨"y".data, "b".data, 1, 2⟩, ⟨none, none, none, none⟩, ⟨1, 1⟩⟩] :
      List QMatch).length :=
  rewrite_frame_property "ab".data
    [⟨⟨"x".data, "a".data, 0, 1⟩, ⟨none, none, none, none⟩, ⟨1, 1⟩⟩,
     ⟨⟨"y".data, "b".data, 1, 2⟩, ⟨none, none, none, none⟩, ⟨1, 1⟩⟩]
    (by decide) (by decide)

theorem match_rate_spec_witness :
    (statsOf [] [] 0 []).match_rate = "0%".data :=
  match_rate_spec.1 [] [] 0 [] rfl

set_option maxRecDepth 40000 in
theorem heuristic_candidate_shape_witness :
    32 ≤ ("I need this to work for everyone of us.".data).length ∧
    ("I need this to work for everyone of us.".data).length ≤ 402 ∧
    (∃ c, ("I need this to work for everyone of us.".data).get?
      (("I need this to work for everyone of us.".data).length - 1) = some c ∧
      c ∈ sentenceEnders) ∧
    "I need this to work for everyone of us.".data =
      clean_quote_for_matching ("I need this to work for everyone of us.".data) ∧
    containsIndicatorWord ("I need this to work for everyone of us.".data) = true :=
  heuristic_candidate_shape ("I need this to work for everyone of us.".data)
    ⟨"I need this to work for everyone of us.".data,
     "I need this to work for everyone of us.".data, 0, 39⟩ (by decide)

/-- C9: all TOC slugs are pairwise distinct, for every heading list the
document scan can produce; colliding slugs receive `-1`, `-2`, ... suffixes
(two level-2 headings `"Intro"` yield `intro` and `intro-1`), and an empty
derived slug falls back to `section-<index>`. -/
theorem toc_slugs_unique :
    (∀ headings : List (Str × Str), ((tocEntriesOf headings).map TocEntry.slug).Nodup) ∧
    (tocEntriesOf [("##".data, "Intro".data), ("##".data, "Intro".data)]).map TocEntry.slug =
      ["intro".data, "intro-1".data] ∧
    (tocEntriesOf [("##".data, "!!!".data)]).map TocEntry.slug = ["section-0".data] := by
  refine ⟨fun headings => toc_fold_slug_nodup headings ([], 0, 0) (by simp), ?_, ?_⟩
  · decide
  · decide
